import Mathlib

/-!
Shallow embedding of the volume-geometry utilities of `niftynet/io/misc_io.py`:
affine/header rectification (`create_affine_pixdim`, `rectify_header_sform_qform`,
`correct_image_if_necessary`), the orientation transform (`do_reorientation`),
the spacing resampler (`do_resampling`), the volume writer (`save_data_array`,
`save_volume_5d`) and the filename splitter (`split_filename`).

Matrices and spacings are embedded over `ℚ` with exact arithmetic.  The
source compares a vector of Euclidean column norms with a declared spacing
vector by `np.array_equal(np.sqrt v, p)`; for nonnegative `v` this holds iff
the vectors have the same length, `v = p * p` componentwise and `0 ≤ p`
componentwise, which is how `sqrtVecEq` embeds it (no square roots needed).
Where the source materialises a square root in the data itself
(`create_affine_pixdim`), the embedding uses the exact rational square root
`Rat.sqrt`, which agrees with the real square root on perfect rational
squares; theorems about that path carry the corresponding perfect-square
hypothesis.
-/

/-- A 4×4 affine matrix with rational entries, indexed `m row col`. -/
abbrev Mat4 := Fin 4 → Fin 4 → ℚ

/-- Sum of squares of the first three rows of column `j`:
`np.sum(np.square(m[0:3, j]))`. -/
def colSq3 (m : Mat4) (j : Fin 4) : ℚ :=
  m 0 j ^ 2 + m 1 j ^ 2 + m 2 j ^ 2

/-- Sum of squares of the whole column `j` (all four rows):
`np.sum(np.square(m[:, j]))`, as used by `create_affine_pixdim`. -/
def colSq4 (m : Mat4) (j : Fin 4) : ℚ :=
  m 0 j ^ 2 + m 1 j ^ 2 + m 2 j ^ 2 + m 3 j ^ 2

/-- `np.sqrt(np.sum(np.square(m[0:3, 0:3]), 0))` squared componentwise: the
squared Euclidean norms of the three leading columns of the 3×3 block. -/
def normSq3List (m : Mat4) : List ℚ :=
  [colSq3 m 0, colSq3 m 1, colSq3 m 2]

/-- Embedding of `np.array_equal(np.sqrt sq, p)` for a componentwise
nonnegative vector `sq`: same length, `sq = p*p` componentwise and `p`
componentwise nonnegative. -/
def sqrtVecEq (sq p : List ℚ) : Bool :=
  (sq == p.map fun x => x * x) && p.all fun x => decide (0 ≤ x)

/-- `create_affine_pixdim(affine, pixdim)`: divide each of the four columns by
its full-column Euclidean norm (the homogeneous column by 1) and multiply it
by the target spacing (`pixdim` with 1 appended).  The column norm is taken
with the exact rational square root `Rat.sqrt`, which agrees with the real
square root whenever the squared norm is a perfect rational square. -/
def create_affine_pixdim (affine : Mat4) (pixdim : List ℚ) : Mat4 :=
  fun i j =>
    let d : ℚ := if (j : ℕ) < 3 then Rat.sqrt (colSq4 affine j) else 1
    let mfac : ℚ := (pixdim ++ [1]).getD (j : ℕ) 1
    affine i j / d * mfac

/-- The slice of a loaded image that the header utilities read and write:
the cached `affine` attribute, the stored sform/qform matrices and codes, the
header's declared zooms (`pixdim`), the header's `dim[0]` entry and whether
the object exposes `get_sform` (the `hasattr` test of
`correct_image_if_necessary`). -/
structure NImg where
  affine : Mat4
  sform : Mat4
  qform : Mat4
  sform_code : ℤ
  qform_code : ℤ
  pixdim : List ℚ
  dim0 : ℕ
  has_sform : Bool

/-- `flag_sform_problem`: the sform's column norms differ from the declared
zooms. -/
def flagS (img : NImg) : Bool :=
  ! sqrtVecEq (normSq3List img.sform) img.pixdim

/-- `flag_qform_problem`: the qform's column norms differ from the declared
zooms. -/
def flagQ (img : NImg) : Bool :=
  ! sqrtVecEq (normSq3List img.qform) img.pixdim

/-- The synthesis fallback of `rectify_header_sform_qform`: both sform and
qform are set to `create_affine_pixdim(img.affine, get_zooms()[:3])`. -/
def synthFallback (img : NImg) : NImg :=
  let new_affine := create_affine_pixdim img.affine (img.pixdim.take 3)
  { img with sform := new_affine, qform := new_affine }

/-- `rectify_header_sform_qform(img_nii)`: keep a consistent active form,
else copy the other form over it when that one is consistent, else fall back
to synthesising both forms from the affine and the declared zooms. -/
def rectify_header_sform_qform (img : NImg) : NImg :=
  if img.sform_code > 0 then
    if ! flagS img then img
    else if ! flagQ img then { img with sform := img.qform }
    else synthFallback img
  else if img.qform_code > 0 then
    if ! flagQ img then img
    else if ! flagS img then { img with qform := img.sform }
    else synthFallback img
  else synthFallback img

/-- The fall-through condition of `rectify_header_sform_qform`: the branch
structure reaches the synthesis fallback (active form inconsistent and the
other form also inconsistent, or no form active). -/
def usesSynthesis (img : NImg) : Bool :=
  if img.sform_code > 0 then flagS img && flagQ img
  else if img.qform_code > 0 then flagQ img && flagS img
  else true

/-- `correct_image_if_necessary(img)`: skip 5-dimensional headers; otherwise
rectify only when the affine's column norms disagree with the declared zooms
and the object exposes `get_sform`. -/
def correct_image_if_necessary (img : NImg) : NImg :=
  if img.dim0 = 5 then img
  else if sqrtVecEq (normSq3List img.affine) img.pixdim then img
  else if img.has_sform then rectify_header_sform_qform img
  else img

theorem sqrt_mul_self_of_nonneg (q : ℚ) (h : 0 ≤ q) : Rat.sqrt (q * q) = q := by
  rw [Rat.sqrt_eq, abs_of_nonneg h]

/-- The identity affine `np.eye(4)`. -/
def eye4 : Mat4 := fun i j => if i = j then 1 else 0

theorem rectify_usesSynthesis (img : NImg) (h : usesSynthesis img = true) :
    rectify_header_sform_qform img = synthFallback img := by
  unfold usesSynthesis at h
  unfold rectify_header_sform_qform
  split_ifs at h ⊢ <;> simp_all

theorem rectify_of_synthFallback (img : NImg) :
    rectify_header_sform_qform (synthFallback img) = synthFallback img := by
  unfold rectify_header_sform_qform
  split_ifs with h1 h2 h3 h4 h5 h6 <;>
    simp_all [flagS, flagQ, synthFallback]

/-- One rescaled column: dividing by a nonzero Euclidean norm and multiplying
by a target spacing scales the squared column norm to the square of the
spacing. -/
theorem colSq3_rescale (a0 a1 a2 n p : ℚ) (hn : n ≠ 0)
    (h : a0 ^ 2 + a1 ^ 2 + a2 ^ 2 = n * n) :
    (a0 / n * p) ^ 2 + (a1 / n * p) ^ 2 + (a2 / n * p) ^ 2 = p * p := by
  field_simp
  linear_combination (p ^ 2) * h

theorem colSq3_create_affine_pixdim (m : Mat4) (pd : List ℚ) (j : Fin 4) (p n : ℚ)
    (hj : (j : ℕ) < 3) (hmf : (pd ++ [1]).getD (j : ℕ) 1 = p)
    (hbot : m 3 j = 0) (hn : 0 ≤ n) (hnn : n * n = colSq4 m j) (hnz : n ≠ 0) :
    colSq3 (create_affine_pixdim m pd) j = p * p := by
  have hd : Rat.sqrt (colSq4 m j) = n := by
    rw [← hnn, sqrt_mul_self_of_nonneg n hn]
  have hcol : m 0 j ^ 2 + m 1 j ^ 2 + m 2 j ^ 2 = n * n := by
    rw [hnn]
    unfold colSq4
    rw [hbot]
    ring
  simp only [colSq3, create_affine_pixdim, if_pos hj, hmf, hd]
  exact colSq3_rescale _ _ _ n p hnz hcol

theorem normSq3_create_affine_pixdim (m : Mat4) (p0 p1 p2 : ℚ)
    (hbot : m 3 0 = 0 ∧ m 3 1 = 0 ∧ m 3 2 = 0)
    (hsq : ∀ j : Fin 4, (j : ℕ) < 3 → ∃ n : ℚ, 0 ≤ n ∧ n * n = colSq4 m j)
    (hnz : ∀ j : Fin 4, (j : ℕ) < 3 → colSq4 m j ≠ 0) :
    normSq3List (create_affine_pixdim m [p0, p1, p2]) = [p0 * p0, p1 * p1, p2 * p2] := by
  obtain ⟨n0, hn0, hnn0⟩ := hsq 0 (by decide)
  obtain ⟨n1, hn1, hnn1⟩ := hsq 1 (by decide)
  obtain ⟨n2, hn2, hnn2⟩ := hsq 2 (by decide)
  have hz0 : n0 ≠ 0 := fun h => hnz 0 (by decide) (by rw [← hnn0, h, mul_zero])
  have hz1 : n1 ≠ 0 := fun h => hnz 1 (by decide) (by rw [← hnn1, h, mul_zero])
  have hz2 : n2 ≠ 0 := fun h => hnz 2 (by decide) (by rw [← hnn2, h, mul_zero])
  unfold normSq3List
  rw [colSq3_create_affine_pixdim m _ 0 p0 n0 (by decide) (by simp) hbot.1 hn0 hnn0 hz0,
    colSq3_create_affine_pixdim m _ 1 p1 n1 (by decide) (by simp) hbot.2.1 hn1 hnn1 hz1,
    colSq3_create_affine_pixdim m _ 2 p2 n2 (by decide) (by simp) hbot.2.2 hn2 hnn2 hz2]

/-- C2: when the synthesis fallback of rectification runs (`usesSynthesis`:
the active form is inconsistent and the other form is not recoverable, or no
form is active), both sform and qform are set to the affine produced by
`create_affine_pixdim`, and for that synthesized affine `A` and declared
spacing `p = get_zooms()[:3]` the Euclidean norms of the first three columns
of `A`'s 3×3 block equal `p` exactly (`sqrtVecEq` encodes the exact equality
`np.sqrt(colnormsq) == p`).  The hypotheses record that the affine has the
homogeneous bottom row, that its column norms are nonzero, and that they are
exact rational square roots (the regime where `Rat.sqrt` agrees with the
real square root of the source). -/
theorem rectify_synthesis_sets_both_forms_exact_norms (img : NImg) (p0 p1 p2 : ℚ)
    (hpath : usesSynthesis img = true)
    (hpd : img.pixdim.take 3 = [p0, p1, p2])
    (hp0 : 0 ≤ p0) (hp1 : 0 ≤ p1) (hp2 : 0 ≤ p2)
    (hbot : img.affine 3 0 = 0 ∧ img.affine 3 1 = 0 ∧ img.affine 3 2 = 0)
    (hsq : ∀ j : Fin 4, (j : ℕ) < 3 → ∃ n : ℚ, 0 ≤ n ∧ n * n = colSq4 img.affine j)
    (hnz : ∀ j : Fin 4, (j : ℕ) < 3 → colSq4 img.affine j ≠ 0) :
    (rectify_header_sform_qform img).sform
        = create_affine_pixdim img.affine (img.pixdim.take 3)
    ∧ (rectify_header_sform_qform img).qform
        = create_affine_pixdim img.affine (img.pixdim.take 3)
    ∧ sqrtVecEq
        (normSq3List (create_affine_pixdim img.affine (img.pixdim.take 3)))
        (img.pixdim.take 3) = true := by
  rw [rectify_usesSynthesis img hpath]
  refine ⟨by simp [synthFallback], by simp [synthFallback], ?_⟩
  rw [hpd]
  have hlist := normSq3_create_affine_pixdim img.affine p0 p1 p2 hbot hsq hnz
  simp only [sqrtVecEq, hlist]
  simp [hp0, hp1, hp2]

/-- Concrete image for the C2 scenario: affine with column norms `[1,1,2]`,
declared pixdim `[1,1,1]`, `sform_code = 0`, `qform_code = 0`. -/
def imgW2 : NImg :=
  { affine := fun i j => if i = j then (if (i : ℕ) = 2 then 2 else 1) else 0
    sform := fun i j => if i = j then (if (i : ℕ) = 2 then 2 else 1) else 0
    qform := fun i j => if i = j then (if (i : ℕ) = 2 then 2 else 1) else 0
    sform_code := 0
    qform_code := 0
    pixdim := [1, 1, 1]
    dim0 := 3
    has_sform := true }

theorem rectify_synthesis_witness :
    usesSynthesis imgW2 = true
    ∧ (rectify_header_sform_qform imgW2).sform
        = create_affine_pixdim imgW2.affine (imgW2.pixdim.take 3)
    ∧ (rectify_header_sform_qform imgW2).qform
        = create_affine_pixdim imgW2.affine (imgW2.pixdim.take 3)
    ∧ sqrtVecEq
        (normSq3List (create_affine_pixdim imgW2.affine (imgW2.pixdim.take 3)))
        (imgW2.pixdim.take 3) = true :=
  ⟨by norm_num [usesSynthesis, imgW2],
    rectify_synthesis_sets_both_forms_exact_norms imgW2 1 1 1
      (by norm_num [usesSynthesis, imgW2]) rfl
      (by norm_num) (by norm_num) (by norm_num)
      (by refine ⟨?_, ?_, ?_⟩ <;> norm_num +decide [imgW2])
      (by
        intro j hj
        fin_cases j
        · exact ⟨1, by norm_num, by norm_num +decide [colSq4, imgW2]⟩
        · exact ⟨1, by norm_num, by norm_num +decide [colSq4, imgW2]⟩
        · exact ⟨2, by norm_num, by norm_num +decide [colSq4, imgW2]⟩
        · exact absurd hj (by decide))
      (by
        intro j hj
        revert hj
        fin_cases j <;> norm_num +decide [colSq4, imgW2])⟩

/-- C3: rectification keeps a consistent active form unchanged, and when the
active form is inconsistent but the other form is consistent it copies the
other form's affine into the active one and returns the image. -/
theorem rectify_active_form_policy (img : NImg) :
    (0 < img.sform_code →
      sqrtVecEq (normSq3List img.sform) img.pixdim = true →
      rectify_header_sform_qform img = img)
    ∧ (0 < img.sform_code →
      sqrtVecEq (normSq3List img.sform) img.pixdim = false →
      sqrtVecEq (normSq3List img.qform) img.pixdim = true →
      rectify_header_sform_qform img = { img with sform := img.qform })
    ∧ (¬ 0 < img.sform_code → 0 < img.qform_code →
      sqrtVecEq (normSq3List img.qform) img.pixdim = true →
      rectify_header_sform_qform img = img)
    ∧ (¬ 0 < img.sform_code → 0 < img.qform_code →
      sqrtVecEq (normSq3List img.qform) img.pixdim = false →
      sqrtVecEq (normSq3List img.sform) img.pixdim = true →
      rectify_header_sform_qform img = { img with qform := img.sform }) := by
  refine ⟨fun h1 h2 => ?_, fun h1 h2 h3 => ?_, fun h1 h2 h3 => ?_, fun h1 h2 h3 h4 => ?_⟩
  · simp [rectify_header_sform_qform, flagS, h1, h2]
  · simp [rectify_header_sform_qform, flagS, flagQ, h1, h2, h3]
  · simp [rectify_header_sform_qform, flagQ, h1, h2, h3]
  · simp [rectify_header_sform_qform, flagS, flagQ, h1, h2, h3, h4]

/-- Concrete image with an active, consistent sform. -/
def imgW3 : NImg :=
  { affine := eye4
    sform := eye4
    qform := fun _ _ => 0
    sform_code := 1
    qform_code := 0
    pixdim := [1, 1, 1]
    dim0 := 3
    has_sform := true }

theorem rectify_active_form_witness :
    0 < imgW3.sform_code
    ∧ sqrtVecEq (normSq3List imgW3.sform) imgW3.pixdim = true
    ∧ rectify_header_sform_qform imgW3 = imgW3 :=
  ⟨by norm_num [imgW3],
    by norm_num +decide [sqrtVecEq, normSq3List, colSq3, imgW3, eye4],
    (rectify_active_form_policy imgW3).1 (by norm_num [imgW3])
      (by norm_num +decide [sqrtVecEq, normSq3List, colSq3, imgW3, eye4])⟩

/-- C6: affine rectification is idempotent. -/
theorem rectify_idempotent (img : NImg) :
    rectify_header_sform_qform (rectify_header_sform_qform img)
      = rectify_header_sform_qform img := by
  by_cases h1 : 0 < img.sform_code
  · by_cases h2 : flagS img = true
    · by_cases h3 : flagQ img = true
      · have hr : rectify_header_sform_qform img = synthFallback img := by
          simp [rectify_header_sform_qform, h1, h2, h3]
        rw [hr, rectify_of_synthFallback]
      · have h3' : flagQ img = false := by simpa using h3
        have hr : rectify_header_sform_qform img = { img with sform := img.qform } := by
          simp [rectify_header_sform_qform, h1, h2, h3']
        rw [hr]
        have hf : flagS { img with sform := img.qform } = false := by
          simp only [flagS]
          simpa [flagQ] using h3'
        simp [rectify_header_sform_qform, h1, hf]
    · have h2' : flagS img = false := by simpa using h2
      have hr : rectify_header_sform_qform img = img := by
        simp [rectify_header_sform_qform, h1, h2']
      rw [hr]
      exact hr
  · by_cases h1' : 0 < img.qform_code
    · by_cases h2 : flagQ img = true
      · by_cases h3 : flagS img = true
        · have hr : rectify_header_sform_qform img = synthFallback img := by
            simp [rectify_header_sform_qform, h1, h1', h2, h3]
          rw [hr, rectify_of_synthFallback]
        · have h3' : flagS img = false := by simpa using h3
          have hr : rectify_header_sform_qform img = { img with qform := img.sform } := by
            simp [rectify_header_sform_qform, h1, h1', h2, h3']
          rw [hr]
          have hf : flagQ { img with qform := img.sform } = false := by
            simp only [flagQ]
            simpa [flagS] using h3'
          simp [rectify_header_sform_qform, h1, h1', hf]
      · have h2' : flagQ img = false := by simpa using h2
        have hr : rectify_header_sform_qform img = img := by
          simp [rectify_header_sform_qform, h1, h1', h2']
        rw [hr]
        exact hr
    · have hr : rectify_header_sform_qform img = synthFallback img := by
        simp [rectify_header_sform_qform, h1, h1']
      rw [hr, rectify_of_synthFallback]

/-- C9: for a non-5-dimensional header whose affine column norms already
equal the declared zooms exactly, `correct_image_if_necessary` returns the
image unchanged; rectification is never attempted. -/
theorem correct_image_consistent_affine (img : NImg)
    (hdim : img.dim0 ≠ 5)
    (hcons : sqrtVecEq (normSq3List img.affine) img.pixdim = true) :
    correct_image_if_necessary img = img := by
  simp [correct_image_if_necessary, hdim, hcons]

/-- Concrete image whose affine is consistent with the zooms while its sform
individually disagrees with them. -/
def imgW9 : NImg :=
  { affine := eye4
    sform := fun _ _ => 0
    qform := eye4
    sform_code := 1
    qform_code := 0
    pixdim := [1, 1, 1]
    dim0 := 3
    has_sform := true }

theorem correct_image_witness :
    imgW9.dim0 ≠ 5
    ∧ sqrtVecEq (normSq3List imgW9.affine) imgW9.pixdim = true
    ∧ sqrtVecEq (normSq3List imgW9.sform) imgW9.pixdim = false
    ∧ correct_image_if_necessary imgW9 = imgW9 :=
  ⟨by norm_num [imgW9],
    by norm_num +decide [sqrtVecEq, normSq3List, colSq3, imgW9, eye4],
    by norm_num +decide [sqrtVecEq, normSq3List, colSq3, imgW9],
    correct_image_consistent_affine imgW9 (by norm_num [imgW9])
      (by norm_num +decide [sqrtVecEq, normSq3List, colSq3, imgW9, eye4])⟩

/-! ### `split_filename` -/

/-- The recognized compound extensions, in the order the source checks them. -/
def FILE_EXTENSIONS : List (List Char) := [".nii.gz".toList, ".tar.gz".toList]

/-- `os.path.basename` for POSIX paths: the characters after the last slash. -/
def basenamePosix (s : List Char) : List Char :=
  (s.reverse.takeWhile (· != '/')).reverse

/-- `os.path.dirname` for POSIX paths: the characters up to and including the
last slash, with trailing slashes stripped unless the head is empty or all
slashes. -/
def dirnamePosix (s : List Char) : List Char :=
  let head := s.take (s.length - (basenamePosix s).length)
  if head ≠ [] ∧ ¬ head.all (· == '/') then head.rdropWhile (· == '/') else head

/-- `str.lower()` on the ASCII characters that appear in the recognized
extensions. -/
def lowerList (s : List Char) : List Char := s.map Char.toLower

/-- `os.path.splitext` restricted to a basename (no slashes): split at the
last dot unless every character before it is a dot. -/
def splitextPosix (p : List Char) : List Char × List Char :=
  let tail := p.reverse.takeWhile (· != '.')
  if tail.length = p.length then (p, [])
  else
    let dotIndex := p.length - tail.length - 1
    if (p.take dotIndex).all (· == '.') then (p, [])
    else (p.take dotIndex, p.drop dotIndex)

/-- `split_filename(file_name)` on the character-list representation: try the
compound extensions (case-insensitively, keeping the basename's original
characters) before generic single-extension splitting. -/
def split_filename_core (file_name : List Char) : List Char × List Char × List Char :=
  let pth := dirnamePosix file_name
  let fname := basenamePosix file_name
  match FILE_EXTENSIONS.find?
      (fun ext => lowerList (fname.drop (fname.length - ext.length)) == ext) with
  | some ext =>
      let suf := fname.drop (fname.length - ext.length)
      let fname2 := if ext.length < fname.length then fname.take (fname.length - ext.length) else []
      (pth, fname2, suf)
  | none =>
      let r := splitextPosix fname
      (pth, r.1, r.2)

/-- `split_filename` on strings. -/
def split_filename (file_name : String) : String × String × String :=
  let r := split_filename_core file_name.toList
  (String.mk r.1, String.mk r.2.1, String.mk r.2.2)

/-- C8: compound extensions are matched before generic single-extension
splitting: `"brain.nii.gz"` splits to `("", "brain", ".nii.gz")`,
`"scan.tar.gz"` to `("", "scan", ".tar.gz")`, and `"img.png"` to
`("", "img", ".png")`. -/
theorem split_filename_scenarios :
    split_filename "brain.nii.gz" = ("", "brain", ".nii.gz")
    ∧ split_filename "scan.tar.gz" = ("", "scan", ".tar.gz")
    ∧ split_filename "img.png" = ("", "img", ".png") := by
  refine ⟨?_, ?_, ?_⟩ <;> rfl

theorem find_ext_nii (f : List Char)
    (h : lowerList (f.drop (f.length - 7)) = ".nii.gz".toList) :
    FILE_EXTENSIONS.find?
        (fun ext => lowerList (f.drop (f.length - ext.length)) == ext)
      = some ".nii.gz".toList := by
  unfold FILE_EXTENSIONS
  apply List.find?_cons_of_pos
  simp only [show (".nii.gz".toList).length = 7 from rfl, h]
  simp

theorem find_ext_tar (f : List Char)
    (h : lowerList (f.drop (f.length - 7)) = ".tar.gz".toList) :
    FILE_EXTENSIONS.find?
        (fun ext => lowerList (f.drop (f.length - ext.length)) == ext)
      = some ".tar.gz".toList := by
  unfold FILE_EXTENSIONS
  rw [List.find?_cons_of_neg, List.find?_cons_of_pos]
  · simp only [show (".tar.gz".toList).length = 7 from rfl, h]
    simp
  · simp only [show (".nii.gz".toList).length = 7 from rfl, h]
    simp

/-- C10: when the basename ends, case-insensitively, with `.nii.gz` or
`.tar.gz`, `split_filename` returns the extension in the basename's original
character case (the 7-character suffix as written), and returns the empty
string as the name when the basename consists solely of that extension. -/
theorem split_filename_compound_preserves_case (s : String)
    (h : lowerList ((basenamePosix s.toList).drop ((basenamePosix s.toList).length - 7))
          = ".nii.gz".toList
      ∨ lowerList ((basenamePosix s.toList).drop ((basenamePosix s.toList).length - 7))
          = ".tar.gz".toList) :
    (split_filename s).2.2
      = String.mk ((basenamePosix s.toList).drop ((basenamePosix s.toList).length - 7))
    ∧ ((basenamePosix s.toList).length = 7 → (split_filename s).2.1 = "") := by
  rcases h with h | h
  · have e1 := find_ext_nii (basenamePosix s.toList) h
    simp only [split_filename, split_filename_core, e1]
    constructor
    · rfl
    · intro hlen
      rw [show (".nii.gz".toList).length = 7 from rfl, hlen]
      rfl
  · have e1 := find_ext_tar (basenamePosix s.toList) h
    simp only [split_filename, split_filename_core, e1]
    constructor
    · rfl
    · intro hlen
      rw [show (".tar.gz".toList).length = 7 from rfl, hlen]
      rfl

theorem split_filename_compound_witness :
    lowerList ((basenamePosix ".NII.GZ".toList).drop
        ((basenamePosix ".NII.GZ".toList).length - 7)) = ".nii.gz".toList
    ∧ (basenamePosix ".NII.GZ".toList).length = 7
    ∧ (split_filename ".NII.GZ").2.2
        = String.mk ((basenamePosix ".NII.GZ".toList).drop
            ((basenamePosix ".NII.GZ".toList).length - 7))
    ∧ (split_filename ".NII.GZ").2.1 = "" :=
  ⟨by rfl, by rfl,
    (split_filename_compound_preserves_case ".NII.GZ" (Or.inl (by rfl))).1,
    (split_filename_compound_preserves_case ".NII.GZ" (Or.inl (by rfl))).2 (by rfl)⟩

/-! ### `do_resampling`, `save_data_array`, `save_volume_5d` -/

/-- The Python exceptions the embedded operations can raise:
`shapeViolation` is the `ValueError` of the 5-D check in `do_resampling`,
`broadcastError` a numpy broadcasting `ValueError` in `np.divide`, and
`attributeError` an `AttributeError` from reading an attribute of `None`. -/
inductive NpErr where
  | shapeViolation : NpErr
  | broadcastError : NpErr
  | attributeError : NpErr
deriving DecidableEq

/-- A dense N-dimensional array: a shape together with the values, read at
arbitrary (flat list) indices. -/
structure NDArr (α : Type) where
  shape : List ℕ
  data : List ℕ → α

/-- `np.divide` on 1-D arrays with numpy broadcasting: elementwise when the
lengths agree, scalar extension when either length is 1, otherwise a
broadcasting error. -/
def npDivide (a b : List ℚ) : Option (List ℚ) :=
  if a.length = b.length then some (List.zipWith (fun x y => x / y) a b)
  else if a.length = 1 then some (b.map fun y => a.getD 0 0 / y)
  else if b.length = 1 then some (a.map fun x => x / b.getD 0 0)
  else none

/-- `data_array[..., t, m]`: the 3-D spatial slab at time `t`, modality `m`. -/
def sliceTM {α : Type} (x : NDArr α) (t m : ℕ) : NDArr α :=
  ⟨x.shape.take 3, fun idx => x.data (idx.take 3 ++ [t, m])⟩

/-- `do_resampling(data_array, pixdim_init, pixdim_fin, interp_order)`.  The
external collaborator `scipy.ndimage.zoom` is a parameter `zoom`; the
slab-by-slab loop over the two trailing axes and the reassembling
concatenations are embedded as the resulting array's shape and lookup
function.  The guard order follows the source: `None` input, identity fast
path on elementwise-equal spacings, the spacing quotient, then the 5-D shape
check. -/
def do_resampling {α : Type} (zoom : NDArr α → List ℚ → ℕ → NDArr α)
    (data_array : Option (NDArr α)) (pixdim_init pixdim_fin : List ℚ)
    (interp_order : ℕ) : Except NpErr (Option (NDArr α)) :=
  match data_array with
  | none => .ok none
  | some arr =>
    if pixdim_fin == pixdim_init then .ok (some arr)
    else
      match npDivide pixdim_init (pixdim_fin.take pixdim_init.length) with
      | none => .error .broadcastError
      | some to_multiply =>
        if arr.shape.length = 5 then
          let T := arr.shape.getD 3 0
          let M := arr.shape.getD 4 0
          let slab := zoom (sliceTM arr 0 0) (to_multiply.take 3) interp_order
          .ok (some ⟨slab.shape ++ [T, M],
            fun idx => (zoom (sliceTM arr (idx.getD 3 0) (idx.getD 4 0))
                (to_multiply.take 3) interp_order).data (idx.take 3)⟩)
        else .error .shapeViolation

/-- C7: resampling with elementwise-equal source and target spacing returns
the input unchanged (also when the input is absent), for every spacing,
interpolation order and zoom collaborator. -/
theorem do_resampling_identity {α : Type} (zoom : NDArr α → List ℚ → ℕ → NDArr α)
    (x : Option (NDArr α)) (s : List ℚ) (order : ℕ) :
    do_resampling zoom x s s order = .ok x := by
  cases x with
  | none => rfl
  | some arr => simp [do_resampling]

/-- A zoom collaborator instance for concrete runs. -/
def zoomId : NDArr ℕ → List ℚ → ℕ → NDArr ℕ := fun a _ _ => a

/-- A concrete 4-D array. -/
def arr4 : NDArr ℕ := ⟨[2, 2, 2, 1], fun _ => 0⟩

/-- C1 counterexample: a 4-D (not 5-D) array given to `do_resampling` with
elementwise-equal spacings is returned unchanged instead of raising the
shape error, contradicting "regardless of the spacing arguments". -/
theorem do_resampling_4d_equal_spacing_returns_array :
    do_resampling zoomId (some arr4) [1, 1, 1] [1, 1, 1] 3 = .ok (some arr4) := by
  simp [do_resampling]

/-- C1 (amended): whenever the array is present, the spacings are not
elementwise equal and the spacing quotient broadcasts, an input without
exactly 5 dimensions raises the shape `ValueError` and no array is
returned. -/
theorem do_resampling_shape_violation {α : Type} (zoom : NDArr α → List ℚ → ℕ → NDArr α)
    (arr : NDArr α) (pixdim_init pixdim_fin : List ℚ) (order : ℕ)
    (hne : (pixdim_fin == pixdim_init) = false)
    (hdiv : (npDivide pixdim_init (pixdim_fin.take pixdim_init.length)).isSome = true)
    (h5 : arr.shape.length ≠ 5) :
    do_resampling zoom (some arr) pixdim_init pixdim_fin order
      = .error .shapeViolation := by
  obtain ⟨tm, htm⟩ := Option.isSome_iff_exists.mp hdiv
  simp [do_resampling, hne, htm, h5]

theorem do_resampling_shape_violation_witness :
    (([2, 2, 2] : List ℚ) == [1, 1, 1]) = false
    ∧ (npDivide [1, 1, 1] (([2, 2, 2] : List ℚ).take [1, 1, 1].length)).isSome = true
    ∧ arr4.shape.length ≠ 5
    ∧ do_resampling zoomId (some arr4) [1, 1, 1] [2, 2, 2] 3
        = .error .shapeViolation :=
  ⟨by norm_num, by rfl, by norm_num [arr4],
    do_resampling_shape_violation zoomId arr4 [1, 1, 1] [2, 2, 2] 3
      (by norm_num) (by rfl) (by norm_num [arr4])⟩

/-- What the final write performs: either nothing (absent array) or a write
of the array with the given affine to `save_path/filename`. -/
inductive SaveOutcome (α : Type) where
  | nothingWritten : SaveOutcome α
  | wrote (arr : NDArr α) (affine : Mat4) (save_path filename : String) : SaveOutcome α

/-- `save_volume_5d(img_data, filename, save_path, affine)`: a no-op on a
`None` array, otherwise the write of the array (directory creation and the
actual disk I/O are outside the embedded geometry core). -/
def save_volume_5d {α : Type} (img_data : Option (NDArr α))
    (filename save_path : String) (affine : Mat4) : SaveOutcome α :=
  match img_data with
  | none => .nothingWritten
  | some a => .wrote a affine save_path filename

/-- `np.expand_dims(a, axis=3)`: insert a singleton axis at position 3. -/
def expandDimsAx3 {α : Type} (x : NDArr α) : NDArr α :=
  ⟨x.shape.take 3 ++ [1] ++ x.shape.drop 3, fun idx => x.data (idx.take 3 ++ idx.drop 4)⟩

/-- The provenance record read by `save_data_array` (each source field is the
`[0]` element of the corresponding image-object attribute). -/
structure ImgObjRec (κ : Type) where
  original_affine : Mat4
  output_pixdim : List ℚ
  output_axcodes : List κ
  original_pixdim : List ℚ
  original_axcodes : List κ

/-- `save_data_array(filefolder, filename, array_to_save, image_object,
interp_order)`, parameterised over the two transforms it invokes (the
resampler and the reorienter of this module).  Reading `array_to_save.shape`
happens before any `None` guard, so an absent array raises
`AttributeError`. -/
def save_data_array {α κ : Type}
    (resampleF : Option (NDArr α) → List ℚ → List ℚ → ℕ → Except NpErr (Option (NDArr α)))
    (reorientF : NDArr α → List κ → List κ → Except NpErr (NDArr α))
    (filefolder filename : String)
    (array_to_save : Option (NDArr α))
    (image_object : Option (ImgObjRec κ)) (interp_order : ℕ) :
    Except NpErr (SaveOutcome α) :=
  let affine := match image_object with | some o => o.original_affine | none => eye4
  let image_pixdim := match image_object with | some o => o.output_pixdim | none => []
  let image_axcodes := match image_object with | some o => o.output_axcodes | none => []
  let dst_pixdim := match image_object with | some o => o.original_pixdim | none => []
  let dst_axcodes := match image_object with | some o => o.original_axcodes | none => []
  match array_to_save with
  | none => .error .attributeError
  | some arr0 =>
    let arr1 := if arr0.shape.length = 4 then expandDimsAx3 arr0 else arr0
    do
      let arr2 ←
        if image_pixdim.isEmpty then pure (some arr1)
        else resampleF (some arr1) image_pixdim dst_pixdim interp_order
      let arr3 ←
        match arr2 with
        | some a =>
            if image_axcodes.isEmpty then pure (some a)
            else (reorientF a image_axcodes dst_axcodes).map some
        | none => pure none
      pure (save_volume_5d arr3 filename filefolder affine)

/-- C4: the spec requires a call with an entirely absent array to be a
no-op returning without error, but `save_data_array` reads
`array_to_save.shape` before the `None` guard in `save_volume_5d` is ever
reached, so every such call raises `AttributeError`, for any combination of
the other arguments. -/
theorem save_data_array_none_raises {α κ : Type}
    (resampleF : Option (NDArr α) → List ℚ → List ℚ → ℕ → Except NpErr (Option (NDArr α)))
    (reorientF : NDArr α → List κ → List κ → Except NpErr (NDArr α))
    (filefolder filename : String)
    (image_object : Option (ImgObjRec κ)) (interp_order : ℕ) :
    save_data_array resampleF reorientF filefolder filename none image_object interp_order
      = .error .attributeError := rfl

/-! ### `do_reorientation` -/

/-- Modelled from the spec: the anatomical direction labels
{R, L, A, P, S, I}, one per array axis, of an orientation code
(`nib.orientations` is the external axis-code parser of the source). -/
inductive Ax where
  | R : Ax
  | L : Ax
  | A : Ax
  | P : Ax
  | S : Ax
  | I : Ax
deriving DecidableEq

/-- The anatomical axis a label lies on (0 = R/L, 1 = A/P, 2 = S/I). -/
def Ax.axisNo : Ax → Fin 3
  | .R => 0
  | .L => 0
  | .A => 1
  | .P => 1
  | .S => 2
  | .I => 2

/-- The direction a label points along its anatomical axis. -/
def Ax.sgn : Ax → ℤ
  | .R => 1
  | .L => -1
  | .A => 1
  | .P => -1
  | .S => 1
  | .I => -1

/-- Modelled from the spec: a length-3 orientation code (one label per
spatial axis). -/
abbrev AxCodes := Fin 3 → Ax

/-- A valid orientation code mentions three distinct anatomical axes. -/
def validCode (c : AxCodes) : Prop :=
  Function.Injective fun i => (c i).axisNo

instance (c : AxCodes) : Decidable (validCode c) :=
  inferInstanceAs (Decidable (Function.Injective fun i => (c i).axisNo))

/-- Modelled from the spec: `nib.orientations.axcodes2ornt` — for each array
axis, the anatomical axis it lies on and the direction it points. -/
def axcodes2ornt (c : AxCodes) : Fin 3 → Fin 3 × ℤ :=
  fun i => ((c i).axisNo, (c i).sgn)

/-- First position of `e` lying on the anatomical axis `ax`. -/
def findAxis (e : Fin 3 → Fin 3 × ℤ) (ax : Fin 3) : Option (Fin 3) :=
  (List.finRange 3).find? fun j => (e j).1 == ax

/-- The transform produced by `ornt_transform` when every axis matches. -/
def orntTransformFun (s e : Fin 3 → Fin 3 × ℤ)
    (h : ∀ i, (findAxis e (s i).1).isSome = true) : Fin 3 → Fin 3 × ℤ :=
  fun i =>
    let j := (findAxis e (s i).1).get (h i)
    (j, if (s i).2 == (e j).2 then 1 else -1)

/-- Modelled from the spec: `nib.orientations.ornt_transform` — map each
axis of the start orientation to the axis of the end orientation lying on
the same anatomical axis, with `-1` when their directions disagree; `none`
models the `ValueError` raised when an axis cannot be matched. -/
def ornt_transform (s e : Fin 3 → Fin 3 × ℤ) : Option (Fin 3 → Fin 3 × ℤ) :=
  if h : ∀ i, (findAxis e (s i).1).isSome = true then some (orntTransformFun s e h)
  else none

/-- A 3-D spatial array: a shape and the values, read at integer indices.
The element type `α` absorbs any trailing time/channel axes, which the
orientation transform passes through unchanged. -/
@[ext]
structure Arr3 (α : Type) where
  shape : Fin 3 → ℕ
  data : (Fin 3 → ℤ) → α

/-- `np.argsort` of `f`, in the regime `apply_orientation` uses it: for a
permutation `f` it is the inverse permutation. -/
def argsort3 (f : Fin 3 → Fin 3) : Fin 3 → Fin 3 :=
  fun k => ((List.finRange 3).find? fun i => f i == k).getD 0

/-- Modelled from the spec: `nib.orientations.apply_orientation` — flip every
axis whose transform entry carries `-1`, then transpose the axes along the
argsort of the transform's first column: a pure permutation-and-flip with no
interpolation. -/
def apply_orientation {α : Type} (x : Arr3 α) (t : Fin 3 → Fin 3 × ℤ) : Arr3 α :=
  let flipped : Arr3 α :=
    ⟨x.shape, fun idx => x.data fun i =>
      if (t i).2 = -1 then (x.shape i : ℤ) - 1 - idx i else idx i⟩
  let p : Fin 3 → Fin 3 := argsort3 fun i => (t i).1
  ⟨fun k => flipped.shape (p k), fun idx => flipped.data fun i => idx (argsort3 p i)⟩

/-- `do_reorientation(data_array, init_axcodes, final_axcodes)`: the identity
fast path when the two orientation descriptors agree, otherwise the
permutation-and-flip transform from the initial to the final orientation. -/
def do_reorientation {α : Type} (data_array : Arr3 α)
    (init_axcodes final_axcodes : AxCodes) : Option (Arr3 α) :=
  let ornt_init := axcodes2ornt init_axcodes
  let ornt_fin := axcodes2ornt final_axcodes
  if ornt_init = ornt_fin then some data_array
  else (ornt_transform ornt_init ornt_fin).map (apply_orientation data_array)

theorem findAxis_eq_some {e : Fin 3 → Fin 3 × ℤ} {ax : Fin 3} {j : Fin 3}
    (h : findAxis e ax = some j) : (e j).1 = ax := by
  have hp := List.find?_some h
  simpa using hp

theorem findAxis_isSome {e : Fin 3 → Fin 3 × ℤ} {ax : Fin 3}
    (h : ∃ j, (e j).1 = ax) : (findAxis e ax).isSome = true := by
  obtain ⟨j, hj⟩ := h
  cases hfind : findAxis e ax with
  | some _ => rfl
  | none =>
    exfalso
    have hnone := List.find?_eq_none.mp hfind j (List.mem_finRange j)
    simp [hj] at hnone

theorem argsort3_left {f : Fin 3 → Fin 3} (hf : Function.Injective f) (i : Fin 3) :
    argsort3 f (f i) = i := by
  unfold argsort3
  cases hfind : (List.finRange 3).find? (fun a => f a == f i) with
  | none =>
    exfalso
    have hnone := List.find?_eq_none.mp hfind i (List.mem_finRange i)
    simp at hnone
  | some j =>
    have hj : f j = f i := by simpa using List.find?_some hfind
    simp [hf hj]

theorem argsort3_right {f : Fin 3 → Fin 3} (hf : Function.Injective f) (k : Fin 3) :
    f (argsort3 f k) = k := by
  obtain ⟨i, rfl⟩ := (Finite.injective_iff_surjective.mp hf) k
  rw [argsort3_left hf]

theorem orntTransformFun_axis (s e : Fin 3 → Fin 3 × ℤ)
    (h : ∀ i, (findAxis e (s i).1).isSome = true) (i : Fin 3) :
    (e ((orntTransformFun s e h i).1)).1 = (s i).1 :=
  findAxis_eq_some (Option.some_get (h i)).symm

theorem orntTransformFun_snd (s e : Fin 3 → Fin 3 × ℤ)
    (h : ∀ i, (findAxis e (s i).1).isSome = true) (i : Fin 3) :
    (orntTransformFun s e h i).2
      = if (s i).2 == (e ((orntTransformFun s e h i).1)).2 then 1 else -1 := rfl

theorem apply_orientation_inverse {α : Type} (x : Arr3 α) (t1 t2 : Fin 3 → Fin 3 × ℤ)
    (hinv1 : ∀ i, (t2 (t1 i).1).1 = i)
    (hinv2 : ∀ j, (t1 (t2 j).1).1 = j)
    (hflip : ∀ i, (t2 (t1 i).1).2 = (t1 i).2) :
    apply_orientation (apply_orientation x t1) t2 = x := by
  have hinj1 : Function.Injective fun i => (t1 i).1 := by
    intro a b hab
    have h1 := hinv1 a
    have h2 := hinv1 b
    simp only at hab
    rw [hab] at h1
    exact h1.symm.trans h2
  have hinj2 : Function.Injective fun j => (t2 j).1 := by
    intro a b hab
    have h1 := hinv2 a
    have h2 := hinv2 b
    simp only at hab
    rw [hab] at h1
    exact h1.symm.trans h2
  have hp1 : ∀ i, argsort3 (fun i => (t1 i).1) ((t1 i).1) = i := argsort3_left hinj1
  have hq1 : ∀ k, (t1 (argsort3 (fun i => (t1 i).1) k)).1 = k := argsort3_right hinj1
  have hq2 : ∀ k, (t2 (argsort3 (fun j => (t2 j).1) k)).1 = k := argsort3_right hinj2
  have hinjp1 : Function.Injective (argsort3 fun i => (t1 i).1) := by
    intro a b hab
    have := congrArg (fun k => (t1 k).1) hab
    simp only at this
    rw [hq1, hq1] at this
    exact this
  have hinjp2 : Function.Injective (argsort3 fun j => (t2 j).1) := by
    intro a b hab
    have := congrArg (fun k => (t2 k).1) hab
    simp only at this
    rw [hq2, hq2] at this
    exact this
  have hps1 : ∀ i, argsort3 (argsort3 fun i => (t1 i).1) i = (t1 i).1 := by
    intro i
    conv_lhs => rw [show i = argsort3 (fun i => (t1 i).1) ((t1 i).1) from (hp1 i).symm]
    rw [argsort3_left hinjp1]
  have hps2 : ∀ j, argsort3 (argsort3 fun j => (t2 j).1) j = (t2 j).1 := by
    intro j
    have hp2 : argsort3 (fun j => (t2 j).1) ((t2 j).1) = j := argsort3_left hinj2 j
    conv_lhs => rw [show j = argsort3 (fun j => (t2 j).1) ((t2 j).1) from hp2.symm]
    rw [argsort3_left hinjp2]
  have hp2s1 : ∀ k, argsort3 (fun j => (t2 j).1) k = (t1 k).1 := by
    intro k
    apply hinj2
    show (t2 (argsort3 (fun j => (t2 j).1) k)).1 = (t2 (t1 k).1).1
    rw [hq2, hinv1]
  ext k
  · simp only [apply_orientation]
    rw [hp2s1, hp1]
  · simp only [apply_orientation]
    apply congrArg x.data
    funext i
    rw [hps1, hps2, hflip i, hp1 i, hinv1 i]
    by_cases hf : (t1 i).2 = -1
    · rw [if_pos hf, if_pos hf]
      ring
    · rw [if_neg hf, if_neg hf]

/-- C5: the orientation transform is a pure permutation-and-flip: for every
array and every two valid orientation codes, reorienting from `cA` to `cB`
and back from `cB` to `cA` returns exactly the original array. -/
theorem do_reorientation_roundtrip {α : Type} (x : Arr3 α) (cA cB : AxCodes)
    (hA : validCode cA) (hB : validCode cB) :
    (do_reorientation x cA cB).bind (fun y => do_reorientation y cB cA) = some x := by
  by_cases heq : axcodes2ornt cA = axcodes2ornt cB
  · simp [do_reorientation, heq]
  · have hAsurj : Function.Surjective (fun i => (cA i).axisNo) :=
      Finite.injective_iff_surjective.mp hA
    have hBsurj : Function.Surjective (fun j => (cB j).axisNo) :=
      Finite.injective_iff_surjective.mp hB
    have hs1 : ∀ i, (findAxis (axcodes2ornt cB) ((axcodes2ornt cA i).1)).isSome = true := by
      intro i
      apply findAxis_isSome
      obtain ⟨j, hj⟩ := hBsurj ((cA i).axisNo)
      exact ⟨j, hj⟩
    have hs2 : ∀ j, (findAxis (axcodes2ornt cA) ((axcodes2ornt cB j).1)).isSome = true := by
      intro j
      apply findAxis_isSome
      obtain ⟨i, hi⟩ := hAsurj ((cB j).axisNo)
      exact ⟨i, hi⟩
    set t1 := orntTransformFun (axcodes2ornt cA) (axcodes2ornt cB) hs1 with ht1
    set t2 := orntTransformFun (axcodes2ornt cB) (axcodes2ornt cA) hs2 with ht2
    have haxis1 : ∀ i, (cB ((t1 i).1)).axisNo = (cA i).axisNo := fun i =>
      orntTransformFun_axis _ _ hs1 i
    have haxis2 : ∀ j, (cA ((t2 j).1)).axisNo = (cB j).axisNo := fun j =>
      orntTransformFun_axis _ _ hs2 j
    have hinv1 : ∀ i, (t2 (t1 i).1).1 = i := by
      intro i
      apply hA
      show (cA ((t2 (t1 i).1).1)).axisNo = (cA i).axisNo
      rw [haxis2, haxis1]
    have hinv2 : ∀ j, (t1 (t2 j).1).1 = j := by
      intro j
      apply hB
      show (cB ((t1 (t2 j).1).1)).axisNo = (cB j).axisNo
      rw [haxis1, haxis2]
    have hflip : ∀ i, (t2 (t1 i).1).2 = (t1 i).2 := by
      intro i
      rw [orntTransformFun_snd _ _ hs2, orntTransformFun_snd _ _ hs1]
      rw [show ((t2 (t1 i).1).1) = i from hinv1 i]
      simp only [beq_iff_eq]
      by_cases hsg : (axcodes2ornt cA i).2 = (axcodes2ornt cB ((t1 i).1)).2
      · rw [if_pos hsg.symm, if_pos hsg]
      · rw [if_neg (fun hc => hsg hc.symm), if_neg hsg]
    have hmain := apply_orientation_inverse x t1 t2 hinv1 hinv2 hflip
    have hne2 : axcodes2ornt cB ≠ axcodes2ornt cA := fun hcontra => heq hcontra.symm
    simp only [do_reorientation, if_neg heq, if_neg hne2, ornt_transform,
      dif_pos hs1, dif_pos hs2, Option.map_some', Option.some_bind]
    rw [hmain]

/-- Concrete codes for the round-trip witness: RAS, and LAS (a flip on the
first axis together with the identity on the others). -/
def codesRAS : AxCodes := ![Ax.R, Ax.A, Ax.S]

/-- A permuted-and-flipped code: PSR covers the three anatomical axes in a
different array order with one reversed direction. -/
def codesPSR : AxCodes := ![Ax.P, Ax.S, Ax.R]

/-- A concrete array for the round-trip witness. -/
def arrW5 : Arr3 ℤ :=
  ⟨fun _ => 2, fun idx => idx 0 + 2 * idx 1 + 4 * idx 2⟩

theorem do_reorientation_roundtrip_witness :
    validCode codesRAS ∧ validCode codesPSR
    ∧ (do_reorientation arrW5 codesRAS codesPSR).bind
        (fun y => do_reorientation y codesPSR codesRAS) = some arrW5 :=
  ⟨by decide, by decide,
    do_reorientation_roundtrip arrW5 codesRAS codesPSR (by decide) (by decide)⟩
